import Mathlib

/-!
Verification of the resilient structured-output channel of the
`sctp-dsai-capstone2` job-recommender repository (`services/llm_client.py`):
the sliding-window rate limiter, the retry loop of `OllamaClient.chat`, and
the JSON extraction pipeline (`chat_json`, `chat_json_array`, `_repair_json`,
`_extract_json_objects`).  Strings are modelled as `List Char`, wall-clock
times as `ℚ`, and Python's `json.loads` as an executable recursive-descent
parser `parseJson`.
-/

/- ### Configuration constants (from `config.py`) -/

def OLLAMA_RATE_LIMIT_REQUESTS_PER_MINUTE : Nat := 60

def OLLAMA_RATE_LIMIT_WINDOW_SECONDS : ℚ := 60

def OLLAMA_RETRY_DELAY_SECONDS : ℚ := 2

def OLLAMA_MAX_RETRIES : Nat := 3

/- ### Character classes and string utilities

Python's `str.strip()` removes the whitespace characters
space, tab, newline, carriage return, vertical tab and form feed;
the `json` module's inter-token whitespace is the smaller set
space, tab, newline, carriage return. -/

def isPySpace (c : Char) : Bool :=
  c = ' ' || c = '\t' || c = '\n' || c = '\r' ||
  c = Char.ofNat 11 || c = Char.ofNat 12

def isJsonSpace (c : Char) : Bool :=
  c = ' ' || c = '\t' || c = '\n' || c = '\r'

/-- Python `str.lstrip()`. -/
def pyLstrip (s : List Char) : List Char := s.dropWhile isPySpace

/-- Python `str.rstrip()`. -/
def pyRstrip (s : List Char) : List Char :=
  (s.reverse.dropWhile isPySpace).reverse

/-- Python `str.strip()`. -/
def pyStrip (s : List Char) : List Char := pyRstrip (pyLstrip s)

/-- Python `s.count(c)` for a single character. -/
def countChar (c : Char) (s : List Char) : Nat := s.count c

/-- Python `s.find(c)` for a single character (`none` plays `-1`). -/
def findChar (c : Char) (s : List Char) : Option Nat :=
  s.findIdx? (· = c)

/-- Python `s.rfind(c)` for a single character (`none` plays `-1`). -/
def rfindChar (c : Char) (s : List Char) : Option Nat :=
  (s.reverse.findIdx? (· = c)).map (fun k => s.length - 1 - k)

/-- Python `s[a:b]` for `0 ≤ a ≤ b`. -/
def pySlice (a b : Nat) (s : List Char) : List Char := (s.take b).drop a

def findSubAux (pat : List Char) : List Char → Nat → Option Nat
  | s, i =>
    if pat.isPrefixOf s then some i
    else
      match s with
      | [] => none
      | _ :: t => findSubAux pat t (i + 1)

/-- Python `s.find(pat)` for a substring (`none` plays `-1`). -/
def findSub (s pat : List Char) : Option Nat := findSubAux pat s 0

/-- Python `pat in s` (substring containment). -/
def hasSub (s pat : List Char) : Bool := (findSub s pat).isSome

/-- Python `s.find(pat, start)`. -/
def findSubFrom (s pat : List Char) (start : Nat) : Option Nat :=
  (findSub (s.drop start) pat).map (· + start)

/-- Python `str.lower()` (ASCII at the use sites). -/
def pyLower (s : List Char) : List Char := s.map Char.toLower

/- ### JSON values and a model of `json.loads`

Numbers keep their source lexeme (the repository never computes with the
numeric value, it only passes parsed structures through), and an object is
the ordered list of its key/value pairs. -/

inductive JVal where
  | null : JVal
  | bool (b : Bool) : JVal
  | num (lex : List Char) : JVal
  | str (cs : List Char) : JVal
  | arr (elems : List JVal) : JVal
  | obj (fields : List (List Char × JVal)) : JVal

def JVal.isObj : JVal → Bool
  | .obj _ => true
  | _ => false

def skipJsonWs (s : List Char) : List Char := s.dropWhile isJsonSpace

def isDigitCh (c : Char) : Bool := '0' ≤ c && c ≤ '9'

def isHexCh (c : Char) : Bool :=
  isDigitCh c || ('a' ≤ c && c ≤ 'f') || ('A' ≤ c && c ≤ 'F')

def hexVal (c : Char) : Nat :=
  if isDigitCh c then c.toNat - '0'.toNat
  else if 'a' ≤ c && c ≤ 'f' then c.toNat - 'a'.toNat + 10
  else c.toNat - 'A'.toNat + 10

/-- Lex a JSON number, returning its lexeme and the rest of the input
(the regex `-?(0|[1-9][0-9]*)(\.[0-9]+)?([eE][+-]?[0-9]+)?`). -/
def lexNumber (s : List Char) : Option (List Char × List Char) := do
  let (sign, s1) :=
    match s with
    | '-' :: t => (['-'], t)
    | _ => ([], s)
  let (intPart, s2) ←
    match s1 with
    | '0' :: t => some (['0'], t)
    | c :: t =>
      if isDigitCh c then
        let (ds, r) := t.span isDigitCh
        some (c :: ds, r)
      else none
    | [] => none
  let (fracPart, s3) :=
    match s2 with
    | '.' :: t =>
      match t.span isDigitCh with
      | ([], _) => (([] : List Char), s2)
      | (ds, r) => ('.' :: ds, r)
    | _ => ([], s2)
  let (expPart, s4) :=
    match s3 with
    | e :: t =>
      if e = 'e' || e = 'E' then
        let (sgn, t1) :=
          match t with
          | c :: t' => if c = '+' || c = '-' then ([c], t') else ([], t)
          | [] => ([], t)
        match t1.span isDigitCh with
        | ([], _) => (([] : List Char), s3)
        | (ds, r) => (e :: (sgn ++ ds), r)
      else ([], s3)
    | [] => ([], s3)
  some (sign ++ intPart ++ fracPart ++ expPart, s4)

/-- Decode a JSON string body after the opening quote, mirroring the strict
decoder: control characters below 0x20 must be escaped, and the escapes
are the two-character ones plus `\uXXXX`. -/
def lexStringBody : List Char → List Char → Option (List Char × List Char)
  | acc, '"' :: r => some (acc.reverse, r)
  | acc, '\\' :: e :: r =>
    match e with
    | '"' => lexStringBody ('"' :: acc) r
    | '\\' => lexStringBody ('\\' :: acc) r
    | '/' => lexStringBody ('/' :: acc) r
    | 'b' => lexStringBody (Char.ofNat 8 :: acc) r
    | 'f' => lexStringBody (Char.ofNat 12 :: acc) r
    | 'n' => lexStringBody ('\n' :: acc) r
    | 'r' => lexStringBody ('\r' :: acc) r
    | 't' => lexStringBody ('\t' :: acc) r
    | 'u' =>
      match r with
      | h1 :: h2 :: h3 :: h4 :: r' =>
        if isHexCh h1 && isHexCh h2 && isHexCh h3 && isHexCh h4 then
          let n := ((hexVal h1 * 16 + hexVal h2) * 16 + hexVal h3) * 16 + hexVal h4
          lexStringBody (Char.ofNat n :: acc) r'
        else none
      | _ => none
    | _ => none
  | acc, c :: r => if c.toNat < 32 then none else lexStringBody (c :: acc) r
  | _, [] => none

mutual

/-- One JSON value (after skipping leading whitespace), returning the value
and the unconsumed rest.  Fuel-indexed; `parseJson` supplies enough fuel. -/
def parseVal : Nat → List Char → Option (JVal × List Char)
  | 0, _ => none
  | Nat.succ fuel, s =>
    match skipJsonWs s with
    | '{' :: r => parseObjFields fuel r true
    | '[' :: r => parseArrElems fuel r true
    | '"' :: r =>
      match lexStringBody [] r with
      | some (cs, r') => some (.str cs, r')
      | none => none
    | 'n' :: 'u' :: 'l' :: 'l' :: r => some (.null, r)
    | 't' :: 'r' :: 'u' :: 'e' :: r => some (.bool true, r)
    | 'f' :: 'a' :: 'l' :: 's' :: 'e' :: r => some (.bool false, r)
    | 'N' :: 'a' :: 'N' :: r => some (.num ['N', 'a', 'N'], r)
    | 'I' :: 'n' :: 'f' :: 'i' :: 'n' :: 'i' :: 't' :: 'y' :: r =>
      some (.num ("Infinity".toList), r)
    | '-' :: 'I' :: 'n' :: 'f' :: 'i' :: 'n' :: 'i' :: 't' :: 'y' :: r =>
      some (.num ("-Infinity".toList), r)
    | t =>
      match lexNumber t with
      | some (lex, r) => some (.num lex, r)
      | none => none

/-- The elements of an array after the opening `[` (`first` marks that no
element has been consumed yet, so a closing `]` yields the empty array). -/
def parseArrElems : Nat → List Char → Bool → Option (JVal × List Char)
  | 0, _, _ => none
  | Nat.succ fuel, s, first =>
    match skipJsonWs s with
    | ']' :: r => if first then some (.arr [], r) else none
    | t =>
      match parseVal fuel t with
      | none => none
      | some (v, r) =>
        match skipJsonWs r with
        | ',' :: r' =>
          match parseArrElems fuel r' false with
          | some (.arr vs, r'') => some (.arr (v :: vs), r'')
          | _ => none
        | ']' :: r' => some (.arr [v], r')
        | _ => none

/-- The fields of an object after the opening brace. -/
def parseObjFields : Nat → List Char → Bool → Option (JVal × List Char)
  | 0, _, _ => none
  | Nat.succ fuel, s, first =>
    match skipJsonWs s with
    | '}' :: r => if first then some (.obj [], r) else none
    | '"' :: t =>
      match lexStringBody [] t with
      | none => none
      | some (key, r) =>
        match skipJsonWs r with
        | ':' :: r' =>
          match parseVal fuel r' with
          | none => none
          | some (v, r'') =>
            match skipJsonWs r'' with
            | ',' :: r3 =>
              match parseObjFields fuel r3 false with
              | some (.obj fs, r4) => some (.obj ((key, v) :: fs), r4)
              | _ => none
            | '}' :: r3 => some (.obj [(key, v)], r3)
            | _ => none
        | _ => none
    | _ => none

end

/- In `parseArrElems` the recursive result is always an `.arr`/`.obj`, so the
catch-all `_ => none` arms for other constructors are dead; they only keep
the mutual recursion first-order. -/

/-- Model of `json.loads`: parse one value and require only whitespace after
it.  The fuel `2 * s.length + 4` dominates the recursion depth, since every
level of nesting consumes at least one character. -/
def parseJson (s : List Char) : Option JVal :=
  match parseVal (2 * s.length + 4) s with
  | some (v, rest) => if (skipJsonWs rest).isEmpty then some v else none
  | none => none

/- ### The URL-stripping regexes of `_repair_json`

`re.sub(r'\(https?://[^\s\)]+\)', '', s)` followed by
`re.sub(r'\(http://[^\s\)]+\)', '', s)`.  The character class excludes `)`,
so the greedy `+` never backtracks usefully: a match is an opening
parenthesis, the scheme, a nonempty run of non-space non-`)` characters,
and a closing parenthesis. -/

def matchLit : List Char → List Char → Option (List Char)
  | [], s => some s
  | _, [] => none
  | l :: ls, c :: cs => if l = c then matchLit ls cs else none

def isUrlBodyChar (c : Char) : Bool := !isPySpace c && c ≠ ')'

/-- A match of the parenthesised-URL pattern at the head of `s`, returning
the rest of the input after the match; `allowS` selects between the
`https?://` pattern and the plain `http://` one. -/
def tryMatchUrl (allowS : Bool) (s : List Char) : Option (List Char) :=
  match s with
  | [] => none
  | c :: r1 =>
    if c = '(' then
      (matchLit ("http".toList) r1).bind fun r2 =>
        (matchLit ("://".toList)
            (if allowS ∧ r2.head? = some 's' then r2.tail else r2)).bind fun r4 =>
          let (body, rest) := r4.span isUrlBodyChar
          if body.isEmpty then none
          else if rest.head? = some ')' then some rest.tail
          else none
    else none

def reSubUrlAux (allowS : Bool) : Nat → List Char → List Char
  | 0, s => s
  | Nat.succ fuel, s =>
    match s with
    | [] => []
    | c :: rest =>
      match tryMatchUrl allowS s with
      | some r => reSubUrlAux allowS fuel r
      | none => c :: reSubUrlAux allowS fuel rest

/-- `re.sub(pattern, '', s)`: delete every non-overlapping match, scanning
left to right. -/
def reSubUrl (allowS : Bool) (s : List Char) : List Char :=
  reSubUrlAux allowS s.length s

/-- Whether the parenthesised-URL pattern matches anywhere in `s`. -/
def hasParenUrl (allowS : Bool) : List Char → Bool
  | [] => false
  | c :: rest => (tryMatchUrl allowS (c :: rest)).isSome || hasParenUrl allowS rest

/- ### `OllamaClient._repair_json` -/

/-- `OllamaClient._repair_json`: remove parenthesised URLs, then, if more
braces were opened than closed, possibly close an unterminated string and
append the missing `\x7d`s; finally append the missing `\x5d`s. -/
def repair_json (json_str : List Char) : List Char :=
  let s1 := reSubUrl true json_str
  let s2 := reSubUrl false s1
  let open_braces := countChar '{' s2
  let close_braces := countChar '}' s2
  let open_brackets := countChar '[' s2
  let close_brackets := countChar ']' s2
  let s3 :=
    if close_braces < open_braces then
      let trimmed := pyRstrip s2
      let s' :=
        match trimmed.getLast? with
        | some lc =>
          if !([ '"', ',', ']', '}' ].contains lc) then
            match rfindChar '"' trimmed with
            | some lq =>
              if lq = 0 || trimmed.getD (lq - 1) ' ' ≠ '\\' then trimmed ++ ['"']
              else s2
            | none => s2
          else s2
        | none => s2
      s' ++ List.replicate (open_braces - close_braces) '}'
    else s2
  if close_brackets < open_brackets then
    s3 ++ List.replicate (open_brackets - close_brackets) ']'
  else s3

/- ### `OllamaClient._extract_json_objects` -/

/-- The `re.sub(r'^\d+\.\s*', '', text, flags=re.MULTILINE)` pattern at a
line start: digits, a dot, then greedy whitespace.  Returns the rest of the
input and whether the position after the match is again a line start (the
last consumed character was a newline). -/
def numListMatch (s : List Char) : Option (List Char × Bool) :=
  match s.span isDigitCh with
  | ([], _) => none
  | (_, r) =>
    match r with
    | '.' :: t =>
      let (ws, rest) := t.span isPySpace
      some (rest, ws.getLast? == some '\n')
    | _ => none

def stripNumberedAux : Nat → Bool → List Char → List Char
  | 0, _, s => s
  | Nat.succ fuel, atStart, s =>
    match s with
    | [] => []
    | c :: rest =>
      if atStart then
        match numListMatch s with
        | some (r, atStart') => stripNumberedAux fuel atStart' r
        | none => c :: stripNumberedAux fuel (c == '\n') rest
      else c :: stripNumberedAux fuel (c == '\n') rest

/-- The multiline `re.sub` removing numbered-list markers `1. `, `2. `, …
at line starts. -/
def stripNumbered (s : List Char) : List Char := stripNumberedAux s.length true s

/-- One brace-balanced candidate: `json.loads`, and on failure
`_repair_json` then `json.loads` again; an unparseable candidate is
skipped. -/
def tryParseCandidate (cand : List Char) : List JVal :=
  match parseJson cand with
  | some v => [v]
  | none =>
    match parseJson (repair_json cand) with
    | some v => [v]
    | none => []

/-- The brace-matching scan of `_extract_json_objects`: `count` is the
running `brace_count` (an `Int`, since a stray `\x7d` drives it negative)
and `acc` holds the characters of the current candidate in reverse while
one is open (`start_idx != -1`). -/
def scanObjectsAux : Int → Option (List Char) → List Char → List JVal
  | _, _, [] => []
  | count, acc, c :: rest =>
    if c = '{' then
      if count = 0 then scanObjectsAux 1 (some [c]) rest
      else scanObjectsAux (count + 1) (acc.map (c :: ·)) rest
    else if c = '}' then
      if count - 1 = 0 then
        match acc with
        | some revChars =>
          tryParseCandidate ((c :: revChars).reverse) ++ scanObjectsAux 0 none rest
        | none => scanObjectsAux (count - 1) none rest
      else scanObjectsAux (count - 1) (acc.map (c :: ·)) rest
    else scanObjectsAux count (acc.map (c :: ·)) rest

/-- `OllamaClient._extract_json_objects`. -/
def extract_json_objects (text : List Char) : List JVal :=
  scanObjectsAux 0 none (stripNumbered text)

/- ### The markdown code-fence stripping shared by `chat_json` and
`chat_json_array` -/

def stripCodeFence (rt : List Char) : List Char :=
  if hasSub rt ("```json".toList) then
    let start := (findSub rt ("```json".toList)).getD 0 + 7
    match findSubFrom rt ("```".toList) start with
    | none => pyStrip (rt.drop start)
    | some e => pyStrip (pySlice start e rt)
  else if hasSub rt ("```".toList) then
    let start := (findSub rt ("```".toList)).getD 0 + 3
    match findSubFrom rt ("```".toList) start with
    | none => pyStrip (rt.drop start)
    | some e => pyStrip (pySlice start e rt)
  else rt

/- ### `chat_json` and `chat_json_array`

Each raise site of the Python methods becomes a distinct error
constructor; `parseFailed` carries the `is_incomplete` truncation
indicator that the final error message reports. -/

inductive ChatJsonErr where
  | emptyResponse : ChatJsonErr
  | gotArrayUseArrayMethod : ChatJsonErr
  | arrayLength (n : Nat) : ChatJsonErr
  | notDict : ChatJsonErr
  | parseFailed (truncationDetected : Bool) : ChatJsonErr
deriving DecidableEq

inductive ChatJsonArrayErr where
  | emptyResponse : ChatJsonArrayErr
  | parseArrayFailed : ChatJsonArrayErr
deriving DecidableEq

/-- The array-first step of `chat_json`: when the stripped text starts
with `[`, slice from the first `[` to the last `]` and try to parse an
array; a one-element array of one mapping is unwrapped, a longer array is
the "use chat_json_array" error, and anything else falls through. -/
def chat_json_array_branch (rt : List Char) : Option (Except ChatJsonErr JVal) :=
  if (pyStrip rt).head? == some '[' then
    match findChar '[' rt, rfindChar ']' rt with
    | some fb, some lb =>
      if fb < lb then
        match parseJson (pySlice fb (lb + 1) rt) with
        | some (.arr (x :: xs)) =>
          if (x :: xs).length = 1 && x.isObj then some (.ok x)
          else some (.error .gotArrayUseArrayMethod)
        | _ => none
      else none
    | _, _ => none
  else none

/-- The boundary slicing of `chat_json`: when both braces occur, cut from
the first `\x7b` to the last `\x7d`. -/
def chat_json_slice (rt : List Char) : List Char :=
  if rt.contains '{' && rt.contains '}' then
    match findChar '{' rt, rfindChar '}' rt with
    | some fb, some lb => if fb < lb then pySlice fb (lb + 1) rt else rt
    | _, _ => rt
  else rt

/-- The parse/repair/scan chain of `chat_json` on the sliced text:
`json.loads`, then `_repair_json` and `json.loads` again, then
`_extract_json_objects`, and finally the parse-failure error carrying the
`is_incomplete` truncation indicator. -/
def chat_json_parse (rt2 : List Char) : Except ChatJsonErr JVal :=
  match parseJson rt2 with
  | some (.obj fs) => .ok (.obj fs)
  | some (.arr (x :: xs)) =>
    if x.isObj then .ok x else .error (.arrayLength (x :: xs).length)
  | some (.arr []) => .error (.arrayLength 0)
  | some _ => .error .notDict
  | none =>
    match parseJson (repair_json rt2) with
    | some (.obj fs) => .ok (.obj fs)
    | _ =>
      match extract_json_objects rt2 with
      | o :: _ => .ok o
      | [] => .error (.parseFailed
          (countChar '}' rt2 < countChar '{' rt2 ||
           countChar ']' rt2 < countChar '[' rt2))

/-- The extraction pipeline of `OllamaClient.chat_json`, applied to the
completion text returned by `chat` (the transport call itself is modelled
separately): empty check, fence stripping, array-first branch, boundary
slicing, then the parse/repair/scan chain. -/
def chat_json (response_text : List Char) : Except ChatJsonErr JVal :=
  if response_text.isEmpty || (pyStrip response_text).isEmpty then
    .error .emptyResponse
  else
    match chat_json_array_branch (stripCodeFence response_text) with
    | some r => r
    | none => chat_json_parse (chat_json_slice (stripCodeFence response_text))

/-- The array slice step of `chat_json_array`: when both brackets occur,
slice from the first `[` to the last `]` and try to parse an array. -/
def chat_json_array_slice (rt : List Char) : Option (List JVal) :=
  if rt.contains '[' && rt.contains ']' then
    match findChar '[' rt, rfindChar ']' rt with
    | some fb, some lb =>
      if fb < lb then
        match parseJson (pySlice fb (lb + 1) rt) with
        | some (.arr xs) => some xs
        | _ => none
      else none
    | _, _ => none
  else none

/-- The extraction pipeline of `OllamaClient.chat_json_array`: empty
check, fence stripping, array slicing, the object scan wrapped into an
array, and the single-object last resort. -/
def chat_json_array (response_text : List Char) : Except ChatJsonArrayErr (List JVal) :=
  if response_text.isEmpty || (pyStrip response_text).isEmpty then
    .error .emptyResponse
  else
    match chat_json_array_slice (stripCodeFence response_text) with
    | some xs => .ok xs
    | none =>
      match extract_json_objects (stripCodeFence response_text) with
      | o :: os => .ok (o :: os)
      | [] =>
        match parseJson (stripCodeFence response_text) with
        | some (.obj fs) => .ok [.obj fs]
        | _ => .error .parseArrayFailed

/- ### The sliding-window rate limiter

`_check_ollama_rate_limit` and `get_ollama_rate_limit_status`, with the
per-model deque of timestamps as a `List ℚ` and `time.time()` values passed
explicitly.  The capacity `N` and window width `W` are the configuration
constants, kept as parameters. -/

/-- The lazy front eviction `while timestamps and current_time -
timestamps[0] > OLLAMA_RATE_LIMIT_WINDOW_SECONDS: timestamps.popleft()`. -/
def dropOldTimestamps (W t : ℚ) (ts : List ℚ) : List ℚ :=
  ts.dropWhile (fun x => decide (W < t - x))

structure AcquireResult where
  wait : ℚ
  now : ℚ
  timestamps : List ℚ

/-- `_check_ollama_rate_limit`: evict, wait out the oldest entry when at
capacity (the sleep is modelled by advancing the clock by exactly the
requested wait), evict again, and record the request.  `wait` is the time
slept and `now` the clock after it. -/
def check_ollama_rate_limit (N : Nat) (W t : ℚ) (ts : List ℚ) : AcquireResult :=
  let ts1 := dropOldTimestamps W t ts
  if N ≤ ts1.length then
    match ts1 with
    | [] => ⟨0, t, [t]⟩
    | oldest :: _ =>
      let wait := W - (t - oldest) + 1/2
      if 0 < wait then
        let t2 := t + wait
        let ts2 := dropOldTimestamps W t2 ts1
        ⟨wait, t2, ts2 ++ [t2]⟩
      else ⟨0, t, ts1 ++ [t]⟩
  else ⟨0, t, ts1 ++ [t]⟩

structure RateLimitStatus where
  requests_in_window : Nat
  remaining_requests : Int
  rate_limit : Nat
  window_seconds : ℚ
deriving DecidableEq

/-- `get_ollama_rate_limit_status`: the returned dictionary together with
the deque as the call leaves it (the eviction loop mutates it). -/
def get_ollama_rate_limit_status (N : Nat) (W t : ℚ) (ts : List ℚ) :
    RateLimitStatus × List ℚ :=
  let ts1 := dropOldTimestamps W t ts
  (⟨ts1.length, max 0 ((N : Int) - ts1.length), N, W⟩, ts1)

/-- The §8 rate-limiter scenario harness: `k` sequential
`_check_ollama_rate_limit` calls issued with no time passing (every call
sees the same clock `t`), returning the total wait and the final deque. -/
def acquireRepeat (N : Nat) (W t : ℚ) : Nat → ℚ × List ℚ
  | 0 => (0, [])
  | Nat.succ k =>
    let prev := acquireRepeat N W t k
    let r := check_ollama_rate_limit N W t prev.2
    (prev.1 + r.wait, r.timestamps)

/- ### The retry loop of `OllamaClient.chat`

One attempt of the `for attempt in range(OLLAMA_MAX_RETRIES)` loop either
returns the completion text or fails in one of the ways the code
distinguishes; the loop is driven by a schedule `outcomes : Nat →
ChatOutcome` giving the outcome of each attempt.  The result is paired
with the list of back-off sleeps performed. -/

inductive ChatOutcome where
  | ok (text : List Char) : ChatOutcome
  | resp404 : ChatOutcome
  | resp405 (detail : List Char) : ChatOutcome
  | badFormat : ChatOutcome
  | timeout (msg : List Char) : ChatOutcome
  | httpError (status : Option Nat) (msg : List Char) : ChatOutcome
  | requestError (msg : List Char) : ChatOutcome

inductive ChatErr where
  | endpointNotFound : ChatErr
  | methodNotAllowed : ChatErr
  | unexpectedFormat : ChatErr
  | timeoutExhausted (attempts : Nat) (msg : List Char) : ChatErr
  | httpExhausted (attempts : Nat) (msg : List Char) : ChatErr
  | serverUnreachable (msg : List Char) : ChatErr
  | apiExhausted (attempts : Nat) (msg : List Char) : ChatErr
  | loopFellThrough (attempts : Nat) : ChatErr
deriving DecidableEq

def chatAux (maxRetries : Nat) (baseDelay : ℚ) (outcomes : Nat → ChatOutcome) :
    Nat → Nat → List ℚ → Except ChatErr (List Char) × List ℚ
  | 0, _, delays => (.error (.loopFellThrough maxRetries), delays)
  | Nat.succ rem, attempt, delays =>
    match outcomes attempt with
    | .ok text => (.ok text, delays)
    | .resp404 => (.error .endpointNotFound, delays)
    | .resp405 _ => (.error .methodNotAllowed, delays)
    | .badFormat => (.error .unexpectedFormat, delays)
    | .timeout msg =>
      if attempt < maxRetries - 1 then
        chatAux maxRetries baseDelay outcomes rem (attempt + 1)
          (delays ++ [baseDelay * ((attempt : ℚ) + 1)])
      else (.error (.timeoutExhausted maxRetries msg), delays)
    | .httpError status msg =>
      if status = some 404 then (.error .endpointNotFound, delays)
      else if status = some 405 then (.error .methodNotAllowed, delays)
      else if attempt < maxRetries - 1 then
        chatAux maxRetries baseDelay outcomes rem (attempt + 1)
          (delays ++ [baseDelay * ((attempt : ℚ) + 1)])
      else (.error (.httpExhausted maxRetries msg), delays)
    | .requestError msg =>
      if hasSub msg ("Connection".toList) || hasSub (pyLower msg) ("refused".toList) then
        (.error (.serverUnreachable msg), delays)
      else if hasSub msg ("404".toList) || hasSub msg ("Not Found".toList) then
        (.error .endpointNotFound, delays)
      else if attempt < maxRetries - 1 then
        chatAux maxRetries baseDelay outcomes rem (attempt + 1)
          (delays ++ [baseDelay * ((attempt : ℚ) + 1)])
      else (.error (.apiExhausted maxRetries msg), delays)

/-- `OllamaClient.chat`'s retry loop over a schedule of attempt outcomes. -/
def chat (maxRetries : Nat) (baseDelay : ℚ) (outcomes : Nat → ChatOutcome) :
    Except ChatErr (List Char) × List ℚ :=
  chatAux maxRetries baseDelay outcomes maxRetries 0 []

/-- `_extract_retry_delay`: the body returns the configured default
unconditionally, whatever the error message says. -/
def extract_retry_delay (error_msg : List Char) : ℚ :=
  OLLAMA_RETRY_DELAY_SECONDS

/-- Modelled from the spec: the classification policy of §4.2/§7 — an error
is retryable iff its text contains a rate-limit/quota indicator (a
429-style code, the word "quota", or "rate limit", case-insensitively).
Stated here only to compare the spec's policy with the code's behaviour. -/
def specRetryableIndicator (msg : List Char) : Bool :=
  hasSub msg ("429".toList) || hasSub (pyLower msg) ("quota".toList) ||
  hasSub (pyLower msg) ("rate limit".toList)

/- ### Helper lemmas -/

theorem mem_dropWhile_of_mem {α : Type} {p : α → Bool} {x : α} :
    ∀ {l : List α}, x ∈ l → p x = false → x ∈ l.dropWhile p := by
  intro l hx hpx
  induction l with
  | nil => cases hx
  | cons a t ih =>
    rw [List.dropWhile_cons]
    by_cases ha : p a = true
    · simp only [ha, if_true]
      cases hx with
      | head => rw [hpx] at ha; cases ha
      | tail _ ht => exact ih ht
    · simp only [ha, if_false]
      exact hx

theorem mem_pyStrip_of_mem {c : Char} {s : List Char} (hc : c ∈ s)
    (hws : isPySpace c = false) : c ∈ pyStrip s := by
  unfold pyStrip pyRstrip pyLstrip
  rw [List.mem_reverse]
  exact mem_dropWhile_of_mem (List.mem_reverse.mpr (mem_dropWhile_of_mem hc hws)) hws

theorem pyStrip_ne_nil {c : Char} {s : List Char} (hc : c ∈ s)
    (hws : isPySpace c = false) : pyStrip s ≠ [] :=
  List.ne_nil_of_mem (mem_pyStrip_of_mem hc hws)

theorem findSubAux_mem {c : Char} {cs s : List Char} :
    ∀ {i k : Nat}, findSubAux (c :: cs) s i = some k → c ∈ s := by
  induction s with
  | nil => intro i k h; simp [findSubAux, List.isPrefixOf] at h
  | cons a t ih =>
    intro i k h
    unfold findSubAux at h
    by_cases hp : (c :: cs).isPrefixOf (a :: t)
    · simp only [List.isPrefixOf, Bool.and_eq_true, beq_iff_eq] at hp
      exact hp.1 ▸ List.mem_cons_self a t
    · simp only [hp, if_neg, Bool.false_eq_true, if_false] at h
      exact List.mem_cons_of_mem a (ih h)

theorem hasSub_eq_false {c : Char} {cs s : List Char} (hc : c ∉ s) :
    hasSub s (c :: cs) = false := by
  unfold hasSub findSub
  cases h : findSubAux (c :: cs) s 0 with
  | none => rfl
  | some k => exact absurd (findSubAux_mem h) hc

theorem findIdx?_mem {α : Type} {p : α → Bool} :
    ∀ {l : List α} {i k : Nat}, List.findIdx? p l i = some k → ∃ x ∈ l, p x = true := by
  intro l
  induction l with
  | nil => intro i k h; simp [List.findIdx?] at h
  | cons a t ih =>
    intro i k h
    rw [List.findIdx?_cons] at h
    by_cases hp : p a = true
    · exact ⟨a, List.mem_cons_self a t, hp⟩
    · simp only [hp, Bool.false_eq_true, if_false] at h
      obtain ⟨x, hx, hpx⟩ := ih h
      exact ⟨x, List.mem_cons_of_mem a hx, hpx⟩

theorem findChar_mem {c : Char} {s : List Char} {i : Nat}
    (h : findChar c s = some i) : c ∈ s := by
  obtain ⟨x, hx, hpx⟩ := findIdx?_mem h
  simp only [decide_eq_true_eq] at hpx
  exact hpx ▸ hx

theorem rfindChar_mem {c : Char} {s : List Char} {j : Nat}
    (h : rfindChar c s = some j) : c ∈ s := by
  unfold rfindChar at h
  cases hf : s.reverse.findIdx? (· = c) with
  | none => rw [hf] at h; cases h
  | some k =>
    obtain ⟨x, hx, hpx⟩ := findIdx?_mem hf
    simp only [decide_eq_true_eq] at hpx
    exact List.mem_reverse.mp (hpx ▸ hx)

theorem head?_dropWhile_false {α : Type} {p : α → Bool} :
    ∀ {l : List α} {a : α}, (l.dropWhile p).head? = some a → p a = false := by
  intro l
  induction l with
  | nil => intro a h; cases h
  | cons x t ih =>
    intro a h
    rw [List.dropWhile_cons] at h
    by_cases hx : p x = true
    · simp only [hx, if_true] at h
      exact ih h
    · simp only [hx, Bool.false_eq_true, if_false, List.head?_cons,
        Option.some.injEq] at h
      subst h
      exact Bool.eq_false_iff.mpr hx

theorem dropWhile_append_single {α : Type} {p : α → Bool} {c : α}
    (hc : p c = false) : ∀ (l : List α),
    List.dropWhile p (l ++ [c]) = l.dropWhile p ++ [c] := by
  intro l
  induction l with
  | nil => simp [List.dropWhile_cons, hc]
  | cons a t ih =>
    rw [List.cons_append, List.dropWhile_cons, List.dropWhile_cons]
    by_cases ha : p a = true
    · simp only [ha, if_true]; exact ih
    · simp [ha]

theorem pyRstrip_cons {c : Char} {t : List Char} (hc : isPySpace c = false) :
    pyRstrip (c :: t) = c :: pyRstrip t := by
  unfold pyRstrip
  rw [List.reverse_cons, dropWhile_append_single hc, List.reverse_append]
  rfl


theorem matchLit_head {l : Char} {ls s r : List Char}
    (h : matchLit (l :: ls) s = some r) : ∃ t, s = l :: t := by
  cases s with
  | nil => cases h
  | cons c cs =>
    simp only [matchLit] at h
    by_cases hlc : l = c
    · exact ⟨cs, by rw [hlc]⟩
    · simp [hlc] at h

theorem tryMatchUrl_of_noS {s r : List Char}
    (h : tryMatchUrl false s = some r) : tryMatchUrl true s = some r := by
  cases s with
  | nil => cases h
  | cons c r1 =>
    simp only [tryMatchUrl] at h ⊢
    by_cases hc : c = '('
    · subst hc
      rw [if_pos rfl] at h ⊢
      cases hlit : matchLit ("http".toList) r1 with
      | none =>
        rw [hlit] at h
        simp only [Option.none_bind] at h
        cases h
      | some r2 =>
        rw [hlit] at h
        simp only [Option.some_bind] at h ⊢
        simp only [Bool.false_eq_true, false_and, if_false] at h
        cases hlit2 : matchLit ("://".toList) r2 with
        | none =>
          rw [hlit2] at h
          simp only [Option.none_bind] at h
          cases h
        | some r4 =>
          have hr2 : ¬(r2.head? = some 's') := by
            obtain ⟨t, ht⟩ := matchLit_head hlit2
            rw [ht]
            simp
          rw [if_neg (by simp [hr2])]
          rw [hlit2] at h ⊢
          simp only [Option.some_bind] at h ⊢
          exact h
    · simp [hc] at h

theorem hasParenUrl_noS_of_hasParenUrl {s : List Char}
    (h : hasParenUrl true s = false) : hasParenUrl false s = false := by
  induction s with
  | nil => rfl
  | cons c t ih =>
    simp only [hasParenUrl, Bool.or_eq_false_iff] at h ⊢
    refine ⟨?_, ih h.2⟩
    cases hm : tryMatchUrl false (c :: t) with
    | none => rfl
    | some r =>
      rw [tryMatchUrl_of_noS hm] at h
      cases h.1

theorem reSubUrlAux_of_no_match {allowS : Bool} :
    ∀ (fuel : Nat) (s : List Char), hasParenUrl allowS s = false →
      reSubUrlAux allowS fuel s = s := by
  intro fuel
  induction fuel with
  | zero => intro s _; rfl
  | succ n ih =>
    intro s hs
    cases s with
    | nil => rfl
    | cons c t =>
      simp only [hasParenUrl, Bool.or_eq_false_iff] at hs
      simp only [reSubUrlAux]
      cases hm : tryMatchUrl allowS (c :: t) with
      | none => rw [ih t hs.2]
      | some r => rw [hm] at hs; cases hs.1

theorem reSubUrl_of_no_match {allowS : Bool} {s : List Char}
    (h : hasParenUrl allowS s = false) : reSubUrl allowS s = s :=
  reSubUrlAux_of_no_match s.length s h

/- ### Claim theorems -/

/-- C10: for every string whose `\x7b`/`\x7d` counts agree, whose `[`/`]`
counts agree, and which contains no parenthesised `http`/`https` URL,
`_repair_json` returns its input unchanged. -/
theorem c10_repair_identity (s : List Char)
    (hurl : hasParenUrl true s = false)
    (hbrace : countChar '{' s = countChar '}' s)
    (hbracket : countChar '[' s = countChar ']' s) :
    repair_json s = s := by
  unfold repair_json
  simp only [reSubUrl_of_no_match hurl,
    reSubUrl_of_no_match (hasParenUrl_noS_of_hasParenUrl hurl)]
  rw [hbrace, hbracket]
  simp

/-- C10 witness: a concrete balanced JSON text is left untouched. -/
theorem c10_repair_identity_witness :
    repair_json ("\x7b\"a\": [1, 2]\x7d".toList) = ("\x7b\"a\": [1, 2]\x7d".toList) :=
  c10_repair_identity _ (by rfl) (by rfl) (by rfl)

/-- C5: the retry-delay helper `_extract_retry_delay` ignores the error
message entirely: it returns the configured base delay (2 seconds) even
when the message embeds an explicit wait time such as "retry in 7
seconds", contradicting its own docstring ("Extract retry delay from
error message … or default delay if not found"). -/
theorem c5_retry_delay_ignores_message :
    extract_retry_delay ("retry in 7 seconds".toList) = 2 ∧
    (∀ msg : List Char, extract_retry_delay msg = OLLAMA_RETRY_DELAY_SECONDS) ∧
    (2 : ℚ) ≠ 7 := by
  refine ⟨rfl, fun _ => rfl, by norm_num⟩

/-- C9: an empty or whitespace-only completion makes both extraction entry
points fail with the dedicated empty-response error, which is a different
error from the parse-failure one. -/
theorem c9_empty_response (s : List Char) (h : pyStrip s = []) :
    chat_json s = .error .emptyResponse ∧
    chat_json_array s = .error .emptyResponse ∧
    (∀ b, ChatJsonErr.emptyResponse ≠ ChatJsonErr.parseFailed b) := by
  refine ⟨?_, ?_, fun b => by simp⟩
  · unfold chat_json
    rw [if_pos (by rw [h]; simp)]
  · unfold chat_json_array
    rw [if_pos (by rw [h]; simp)]

/-- C9 witness at a whitespace-only completion. -/
theorem c9_empty_response_witness :
    chat_json ("  \n ".toList) = .error .emptyResponse ∧
    chat_json_array ("  \n ".toList) = .error .emptyResponse ∧
    (∀ b, ChatJsonErr.emptyResponse ≠ ChatJsonErr.parseFailed b) :=
  c9_empty_response _ (by rfl)

/-- C6 counterexample: `get_ollama_rate_limit_status` does mutate the
deque — with the configured window of 60 s, a status query at time 61 for
a window holding one timestamp recorded at time 0 evicts that entry. -/
theorem c6_counterexample :
    (get_ollama_rate_limit_status OLLAMA_RATE_LIMIT_REQUESTS_PER_MINUTE
      OLLAMA_RATE_LIMIT_WINDOW_SECONDS 61 [0]).2 ≠ [0] := by
  norm_num [get_ollama_rate_limit_status, dropOldTimestamps,
    OLLAMA_RATE_LIMIT_WINDOW_SECONDS, List.dropWhile]

/-- C6 amended: the status query evicts expired timestamps but never adds
any (the resulting deque is a sublist of the input), and at a fixed
instant it is idempotent — a repeated call returns the identical report,
so the reported remaining count cannot change without an intervening
acquire. -/
theorem c6_status_idempotent (N : Nat) (W t : ℚ) (ts : List ℚ) :
    get_ollama_rate_limit_status N W t (get_ollama_rate_limit_status N W t ts).2
      = get_ollama_rate_limit_status N W t ts ∧
    ((get_ollama_rate_limit_status N W t ts).2).Sublist ts := by
  constructor
  · unfold get_ollama_rate_limit_status
    simp only [dropOldTimestamps, List.dropWhile_idempotent]
  · exact List.dropWhile_sublist _

/-- The retry loop on a schedule that fails every attempt with an
HTTP 429 error: the loop retries until the budget is exhausted and then
reports the terminal HTTP error naming the attempt limit and the last
cause, having slept once per retry. -/
theorem chatAux_const429 (maxRetries : Nat) (baseDelay : ℚ) (msg : List Char) :
    ∀ (rem attempt : Nat) (delays : List ℚ), 1 ≤ rem → attempt + rem = maxRetries →
      (chatAux maxRetries baseDelay (fun _ => .httpError (some 429) msg)
          rem attempt delays).1 = .error (.httpExhausted maxRetries msg) ∧
      (chatAux maxRetries baseDelay (fun _ => .httpError (some 429) msg)
          rem attempt delays).2.length = delays.length + (rem - 1) := by
  intro rem
  induction rem with
  | zero => intro attempt delays h1 _; exact absurd h1 (by omega)
  | succ n ih =>
    intro attempt delays _ hsum
    simp only [chatAux]
    rw [if_neg (by simp), if_neg (by simp)]
    by_cases hlt : attempt < maxRetries - 1
    · rw [if_pos hlt]
      have h1 : 1 ≤ n := by omega
      obtain ⟨ha, hb⟩ := ih (attempt + 1)
        (delays ++ [baseDelay * ((attempt : ℚ) + 1)]) h1 (by omega)
      refine ⟨ha, ?_⟩
      rw [hb]
      simp only [List.length_append, List.length_cons, List.length_nil]
      omega
    · rw [if_neg hlt]
      have hn : n = 0 := by omega
      subst hn
      exact ⟨rfl, by simp⟩

/-- C2 counterexample: a read-timeout failure carries no rate-limit/quota
indicator in its text, yet the loop retries it (and succeeds on the second
attempt after one back-off sleep of 2 s) instead of propagating it
immediately as the claim requires. -/
theorem c2_counterexample :
    (chat OLLAMA_MAX_RETRIES OLLAMA_RETRY_DELAY_SECONDS
      (fun n => if n = 0 then .timeout ("Read timed out.".toList)
                else .ok ("hi".toList))).1 = .ok ("hi".toList) ∧
    (chat OLLAMA_MAX_RETRIES OLLAMA_RETRY_DELAY_SECONDS
      (fun n => if n = 0 then .timeout ("Read timed out.".toList)
                else .ok ("hi".toList))).2 = [2] ∧
    specRetryableIndicator ("Read timed out.".toList) = false := by
  refine ⟨rfl, by norm_num [chat, chatAux, OLLAMA_MAX_RETRIES,
    OLLAMA_RETRY_DELAY_SECONDS], rfl⟩

/-- The retry loop on a schedule that times out on every attempt:
retried until the budget is exhausted, then the terminal timeout error
names the attempt limit and the last cause, one sleep per retry. -/
theorem chatAux_const_timeout (maxRetries : Nat) (baseDelay : ℚ) (msg : List Char) :
    ∀ (rem attempt : Nat) (delays : List ℚ), 1 ≤ rem → attempt + rem = maxRetries →
      (chatAux maxRetries baseDelay (fun _ => .timeout msg)
          rem attempt delays).1 = .error (.timeoutExhausted maxRetries msg) ∧
      (chatAux maxRetries baseDelay (fun _ => .timeout msg)
          rem attempt delays).2.length = delays.length + (rem - 1) := by
  intro rem
  induction rem with
  | zero => intro attempt delays h1 _; exact absurd h1 (by omega)
  | succ n ih =>
    intro attempt delays _ hsum
    simp only [chatAux]
    by_cases hlt : attempt < maxRetries - 1
    · rw [if_pos hlt]
      have h1 : 1 ≤ n := by omega
      obtain ⟨ha, hb⟩ := ih (attempt + 1)
        (delays ++ [baseDelay * ((attempt : ℚ) + 1)]) h1 (by omega)
      refine ⟨ha, ?_⟩
      rw [hb]
      simp only [List.length_append, List.length_cons, List.length_nil]
      omega
    · rw [if_neg hlt]
      have hn : n = 0 := by omega
      subst hn
      exact ⟨rfl, by simp⟩

/-- The retry loop on a schedule that fails every attempt with a generic
request error (no connection/refused and no 404/Not-Found text): retried
until the budget is exhausted, then the terminal API error names the
attempt limit and the last cause, one sleep per retry. -/
theorem chatAux_const_reqErr (maxRetries : Nat) (baseDelay : ℚ) (msg : List Char)
    (h1 : hasSub msg ("Connection".toList) = false)
    (h2 : hasSub (pyLower msg) ("refused".toList) = false)
    (h3 : hasSub msg ("404".toList) = false)
    (h4 : hasSub msg ("Not Found".toList) = false) :
    ∀ (rem attempt : Nat) (delays : List ℚ), 1 ≤ rem → attempt + rem = maxRetries →
      (chatAux maxRetries baseDelay (fun _ => .requestError msg)
          rem attempt delays).1 = .error (.apiExhausted maxRetries msg) ∧
      (chatAux maxRetries baseDelay (fun _ => .requestError msg)
          rem attempt delays).2.length = delays.length + (rem - 1) := by
  intro rem
  induction rem with
  | zero => intro attempt delays hr _; exact absurd hr (by omega)
  | succ n ih =>
    intro attempt delays _ hsum
    simp only [chatAux]
    rw [h1, h2, h3, h4]
    simp only [Bool.or_false, Bool.false_eq_true, if_false]
    by_cases hlt : attempt < maxRetries - 1
    · rw [if_pos hlt]
      have hn1 : 1 ≤ n := by omega
      obtain ⟨ha, hb⟩ := ih (attempt + 1)
        (delays ++ [baseDelay * ((attempt : ℚ) + 1)]) hn1 (by omega)
      refine ⟨ha, ?_⟩
      rw [hb]
      simp only [List.length_append, List.length_cons, List.length_nil]
      omega
    · rw [if_neg hlt]
      have hn : n = 0 := by omega
      subst hn
      exact ⟨rfl, by simp⟩

/-- C2 amended: the loop classifies by error structure, not by rate-limit
text.  Retryable failures — an HTTP 429 (or any non-404/405 HTTP error),
a timeout, and a request error carrying neither connection/refused nor
404/Not-Found text — are each retried `maxRetries - 1` times (one
back-off sleep per retry) and then the terminal error names the attempt
limit and the last cause.  Fatal failures — a connection-refused request
error, a request error whose text indicates 404/Not Found, a 404 or 405
response (caught either via the status-code check or via the HTTPError
handler), and a malformed response body — propagate immediately on the
first attempt with no back-off sleep. -/
theorem c2_amended (maxRetries : Nat) (baseDelay : ℚ)
    (msg429 msgRefused msgNotFound msgTimeout msgReq msgHttp detail405 : List Char)
    (outcomes onf o404 o405 oh404 oh405 obad : Nat → ChatOutcome)
    (hmax : 1 ≤ maxRetries)
    (href : hasSub (pyLower msgRefused) ("refused".toList) = true)
    (hout : outcomes 0 = .requestError msgRefused)
    (hnf1 : hasSub msgNotFound ("Connection".toList) = false)
    (hnf2 : hasSub (pyLower msgNotFound) ("refused".toList) = false)
    (hnf3 : hasSub msgNotFound ("404".toList) = true)
    (honf : onf 0 = .requestError msgNotFound)
    (h404 : o404 0 = .resp404)
    (h405 : o405 0 = .resp405 detail405)
    (hh404 : oh404 0 = .httpError (some 404) msgHttp)
    (hh405 : oh405 0 = .httpError (some 405) msgHttp)
    (hbad : obad 0 = .badFormat)
    (hrq1 : hasSub msgReq ("Connection".toList) = false)
    (hrq2 : hasSub (pyLower msgReq) ("refused".toList) = false)
    (hrq3 : hasSub msgReq ("404".toList) = false)
    (hrq4 : hasSub msgReq ("Not Found".toList) = false) :
    (chat maxRetries baseDelay (fun _ => .httpError (some 429) msg429)).1
      = .error (.httpExhausted maxRetries msg429) ∧
    (chat maxRetries baseDelay (fun _ => .httpError (some 429) msg429)).2.length
      = maxRetries - 1 ∧
    (chat maxRetries baseDelay (fun _ => .timeout msgTimeout)).1
      = .error (.timeoutExhausted maxRetries msgTimeout) ∧
    (chat maxRetries baseDelay (fun _ => .timeout msgTimeout)).2.length
      = maxRetries - 1 ∧
    (chat maxRetries baseDelay (fun _ => .requestError msgReq)).1
      = .error (.apiExhausted maxRetries msgReq) ∧
    (chat maxRetries baseDelay (fun _ => .requestError msgReq)).2.length
      = maxRetries - 1 ∧
    chat maxRetries baseDelay outcomes = (.error (.serverUnreachable msgRefused), []) ∧
    chat maxRetries baseDelay onf = (.error .endpointNotFound, []) ∧
    chat maxRetries baseDelay o404 = (.error .endpointNotFound, []) ∧
    chat maxRetries baseDelay o405 = (.error .methodNotAllowed, []) ∧
    chat maxRetries baseDelay oh404 = (.error .endpointNotFound, []) ∧
    chat maxRetries baseDelay oh405 = (.error .methodNotAllowed, []) ∧
    chat maxRetries baseDelay obad = (.error .unexpectedFormat, []) := by
  obtain ⟨ha, hb⟩ := chatAux_const429 maxRetries baseDelay msg429
    maxRetries 0 [] hmax (by omega)
  obtain ⟨hc, hd⟩ := chatAux_const_timeout maxRetries baseDelay msgTimeout
    maxRetries 0 [] hmax (by omega)
  obtain ⟨he, hf⟩ := chatAux_const_reqErr maxRetries baseDelay msgReq
    hrq1 hrq2 hrq3 hrq4 maxRetries 0 [] hmax (by omega)
  obtain ⟨m, rfl⟩ : ∃ m, maxRetries = m + 1 := ⟨maxRetries - 1, by omega⟩
  refine ⟨ha, by simpa using hb, hc, by simpa using hd, he, by simpa using hf,
    ?_, ?_, ?_, ?_, ?_, ?_, ?_⟩
  · unfold chat
    simp only [chatAux, hout, href, Bool.or_true, if_pos]
  · unfold chat
    simp only [chatAux, honf, hnf1, hnf2, hnf3, Bool.or_false,
      Bool.false_eq_true, if_false, Bool.true_or, if_pos]
  · unfold chat
    simp only [chatAux, h404]
  · unfold chat
    simp only [chatAux, h405]
  · unfold chat
    simp [chatAux, hh404]
  · unfold chat
    simp [chatAux, hh405]
  · unfold chat
    simp only [chatAux, hbad]

/-- C2 witness: every amended behaviour at the configured retry budget of
3 with concrete messages and schedules. -/
theorem c2_amended_witness :
    (chat 3 2 (fun _ => .httpError (some 429)
        ("429 Client Error: Too Many Requests".toList))).1
      = .error (.httpExhausted 3 ("429 Client Error: Too Many Requests".toList)) ∧
    (chat 3 2 (fun _ => .httpError (some 429)
        ("429 Client Error: Too Many Requests".toList))).2.length = 3 - 1 ∧
    (chat 3 2 (fun _ => .timeout ("Read timed out.".toList))).1
      = .error (.timeoutExhausted 3 ("Read timed out.".toList)) ∧
    (chat 3 2 (fun _ => .timeout ("Read timed out.".toList))).2.length = 3 - 1 ∧
    (chat 3 2 (fun _ => .requestError ("Invalid URL schema".toList))).1
      = .error (.apiExhausted 3 ("Invalid URL schema".toList)) ∧
    (chat 3 2 (fun _ => .requestError ("Invalid URL schema".toList))).2.length = 3 - 1 ∧
    chat 3 2 (fun _ => .requestError ("Connection refused".toList))
      = (.error (.serverUnreachable ("Connection refused".toList)), []) ∧
    chat 3 2 (fun _ => .requestError ("404 Client Error: Not Found for url".toList))
      = (.error .endpointNotFound, []) ∧
    chat 3 2 (fun _ => .resp404) = (.error .endpointNotFound, []) ∧
    chat 3 2 (fun _ => .resp405 ("method not allowed".toList))
      = (.error .methodNotAllowed, []) ∧
    chat 3 2 (fun _ => .httpError (some 404) ("server error".toList))
      = (.error .endpointNotFound, []) ∧
    chat 3 2 (fun _ => .httpError (some 405) ("server error".toList))
      = (.error .methodNotAllowed, []) ∧
    chat 3 2 (fun _ => .badFormat) = (.error .unexpectedFormat, []) :=
  c2_amended 3 2 ("429 Client Error: Too Many Requests".toList)
    ("Connection refused".toList) ("404 Client Error: Not Found for url".toList)
    ("Read timed out.".toList) ("Invalid URL schema".toList)
    ("server error".toList) ("method not allowed".toList)
    (fun _ => .requestError ("Connection refused".toList))
    (fun _ => .requestError ("404 Client Error: Not Found for url".toList))
    (fun _ => .resp404) (fun _ => .resp405 ("method not allowed".toList))
    (fun _ => .httpError (some 404) ("server error".toList))
    (fun _ => .httpError (some 405) ("server error".toList))
    (fun _ => .badFormat)
    (by norm_num) (by rfl) rfl (by rfl) (by rfl) (by rfl)
    rfl rfl rfl rfl rfl rfl
    (by rfl) (by rfl) (by rfl) (by rfl)

/-- C3 counterexample: on `\x7b"a": [1` the repair appends the missing
close-brace before the missing close-bracket (`…1\x7d]`), not in
bracket-matching order (`…1]\x7d`): the repaired text does not parse,
while the properly nested close would. -/
theorem c3_counterexample :
    repair_json ("\x7b\"matched_skills\": [\"sql\"".toList)
      = ("\x7b\"matched_skills\": [\"sql\"\x7d]".toList) ∧
    parseJson ("\x7b\"matched_skills\": [\"sql\"\x7d]".toList) = none ∧
    parseJson ("\x7b\"matched_skills\": [\"sql\"]\x7d".toList)
      = some (.obj [("matched_skills".toList, .arr [.str ("sql".toList)])]) :=
  ⟨by rfl, by rfl, by rfl⟩

/-- C3 amended: when more braces were opened than closed, `_repair_json`
appends one closing quote (provided the right-trimmed text does not end on
a quote, comma or closing delimiter and its last quote is unescaped) and
then appends all missing `\x7d`s followed by all missing `\x5d`s — a fixed
order, not bracket-matching order.  On the truncated scenario input the
repaired text `\x7b"matched_skills": ["sql"\x7d]` still fails to parse and
`chat_json` raises its parse-failure error with the truncation indicator
set. -/
theorem c3_amended (s : List Char)
    (hurl : hasParenUrl true s = false)
    (hbr : countChar '}' s < countChar '{' s)
    (lc : Char) (hlast : (pyRstrip s).getLast? = some lc)
    (hlc : ['"', ',', ']', '}'].contains lc = false)
    (lq : Nat) (hlq : rfindChar '"' (pyRstrip s) = some lq)
    (hesc : lq = 0 ∨ (pyRstrip s).getD (lq - 1) ' ' ≠ '\\') :
    repair_json s = pyRstrip s ++ ['"']
      ++ List.replicate (countChar '{' s - countChar '}' s) '}'
      ++ List.replicate (countChar '[' s - countChar ']' s) ']' ∧
    repair_json ("\x7b\"matched_skills\": [\"sql\"".toList)
      = ("\x7b\"matched_skills\": [\"sql\"\x7d]".toList) ∧
    chat_json ("\x7b\"matched_skills\": [\"sql\"".toList)
      = .error (.parseFailed true) := by
  refine ⟨?_, by rfl, by rfl⟩
  have hq : (decide (lq = 0) || decide ((pyRstrip s).getD (lq - 1) ' ' ≠ '\\')) = true := by
    rcases hesc with h | h
    · rw [decide_eq_true h, Bool.true_or]
    · rw [decide_eq_true h, Bool.or_true]
  unfold repair_json
  simp only [reSubUrl_of_no_match hurl,
    reSubUrl_of_no_match (hasParenUrl_noS_of_hasParenUrl hurl)]
  rw [if_pos hbr]
  simp only [hlast, hlc, Bool.not_false, eq_self_iff_true, if_true, hlq]
  rw [if_pos hq]
  by_cases hbk : countChar ']' s < countChar '[' s
  · rw [if_pos hbk]
  · rw [if_neg hbk]
    have h0 : countChar '[' s - countChar ']' s = 0 := by omega
    rw [h0]
    simp [List.append_assoc]

/-- C3 witness: the amended repair formula at the truncated text
`\x7b"k": tru`, whose repair closes the string and the brace. -/
theorem c3_amended_witness :
    repair_json ("\x7b\"k\": tru".toList) = pyRstrip ("\x7b\"k\": tru".toList) ++ ['"']
      ++ List.replicate (countChar '{' ("\x7b\"k\": tru".toList)
          - countChar '}' ("\x7b\"k\": tru".toList)) '}'
      ++ List.replicate (countChar '[' ("\x7b\"k\": tru".toList)
          - countChar ']' ("\x7b\"k\": tru".toList)) ']' ∧
    repair_json ("\x7b\"matched_skills\": [\"sql\"".toList)
      = ("\x7b\"matched_skills\": [\"sql\"\x7d]".toList) ∧
    chat_json ("\x7b\"matched_skills\": [\"sql\"".toList)
      = .error (.parseFailed true) :=
  c3_amended ("\x7b\"k\": tru".toList) (by rfl) (by decide) 'u' (by rfl) (by rfl)
    3 (by rfl) (Or.inr (by decide))

theorem dropOld_replicate {N : Nat} {W t : ℚ} (hW : 0 < W) :
    dropOldTimestamps W t (List.replicate N t) = List.replicate N t := by
  cases N with
  | zero => rfl
  | succ m =>
    unfold dropOldTimestamps
    rw [List.replicate_succ, List.dropWhile_cons, if_neg (by
      intro h
      simp only [sub_self, decide_eq_true_eq] at h
      linarith)]

theorem acquireRepeat_under (N : Nat) (W t : ℚ) (hW : 0 < W) :
    ∀ k, k ≤ N → acquireRepeat N W t k = (0, List.replicate k t) := by
  intro k
  induction k with
  | zero => intro _; rfl
  | succ n ih =>
    intro hk
    simp only [acquireRepeat, ih (by omega)]
    unfold check_ollama_rate_limit
    rw [dropOld_replicate hW]
    rw [if_neg (by simp only [List.length_replicate]; omega)]
    simp only [Prod.mk.injEq]
    exact ⟨by ring, (List.replicate_succ' n t).symm⟩

theorem acquireRepeat_over (N : Nat) (W t : ℚ) (hN : 1 ≤ N) (hW : 0 < W) :
    (acquireRepeat N W t (N + 1)).1 = W + 1/2 := by
  obtain ⟨m, rfl⟩ : ∃ m, N = m + 1 := ⟨N - 1, by omega⟩
  have step : acquireRepeat (m + 1) W t (m + 1 + 1)
      = (let prev := acquireRepeat (m + 1) W t (m + 1)
         let r := check_ollama_rate_limit (m + 1) W t prev.2
         (prev.1 + r.wait, r.timestamps)) := rfl
  rw [step, acquireRepeat_under (m + 1) W t hW (m + 1) le_rfl]
  simp only []
  unfold check_ollama_rate_limit
  rw [dropOld_replicate hW]
  rw [if_pos (by simp)]
  rw [List.replicate_succ]
  simp only []
  have hwait : (0 : ℚ) < W - (t - t) + 1/2 := by
    rw [sub_self]
    linarith
  rw [if_pos hwait]
  ring

theorem acquire_invariant (N : Nat) (W t : ℚ) (ts : List ℚ)
    (hN : 1 ≤ N) (hsort : ts.Pairwise (· ≤ ·)) (hle : ∀ x ∈ ts, x ≤ t)
    (hlen : ts.length ≤ N) :
    (check_ollama_rate_limit N W t ts).timestamps.length ≤ N ∧
    (check_ollama_rate_limit N W t ts).timestamps.Pairwise (· ≤ ·) ∧
    (∀ x ∈ (check_ollama_rate_limit N W t ts).timestamps,
      x ≤ (check_ollama_rate_limit N W t ts).now) ∧
    t ≤ (check_ollama_rate_limit N W t ts).now := by
  unfold check_ollama_rate_limit
  have hsub : (dropOldTimestamps W t ts).Sublist ts := List.dropWhile_sublist _
  have hsort1 : (dropOldTimestamps W t ts).Pairwise (· ≤ ·) :=
    List.Pairwise.sublist hsub hsort
  have hle1 : ∀ x ∈ dropOldTimestamps W t ts, x ≤ t :=
    fun x hx => hle x (hsub.subset hx)
  have hlen1 : (dropOldTimestamps W t ts).length ≤ ts.length := hsub.length_le
  by_cases hcap : N ≤ (dropOldTimestamps W t ts).length
  · rw [if_pos hcap]
    cases hts1 : dropOldTimestamps W t ts with
    | nil => rw [hts1] at hcap; simp at hcap; omega
    | cons oldest rest =>
      have hold : t - oldest ≤ W := by
        have h := head?_dropWhile_false (l := ts)
          (p := fun x => decide (W < t - x)) (a := oldest)
          (by rw [show List.dropWhile (fun x => decide (W < t - x)) ts
                    = dropOldTimestamps W t ts from rfl, hts1]; rfl)
        simpa using h
      have hwait : (0 : ℚ) < W - (t - oldest) + 1/2 := by linarith
      simp only []
      rw [if_pos hwait]
      have holdest_le : oldest ≤ t := hle1 oldest (by rw [hts1]; exact List.mem_cons_self _ _)
      have hrest_le : ∀ x ∈ rest, x ≤ t := by
        intro x hx
        exact hle1 x (by rw [hts1]; exact List.mem_cons_of_mem _ hx)
      have hrest_sorted : rest.Pairwise (· ≤ ·) := by
        rw [hts1] at hsort1
        exact hsort1.of_cons
      have ht2 : t ≤ t + (W - (t - oldest) + 1/2) := by linarith
      have hdrop2 : dropOldTimestamps W (t + (W - (t - oldest) + 1/2)) (oldest :: rest)
          = List.dropWhile (fun x => decide (W < t + (W - (t - oldest) + 1/2) - x)) rest := by
        unfold dropOldTimestamps
        rw [List.dropWhile_cons, if_pos (by
          simp only [decide_eq_true_eq]
          linarith)]
      rw [hdrop2]
      have hsub2 : (List.dropWhile
          (fun x => decide (W < t + (W - (t - oldest) + 1/2) - x)) rest).Sublist rest :=
        List.dropWhile_sublist _
      have hlen2 : (List.dropWhile
          (fun x => decide (W < t + (W - (t - oldest) + 1/2) - x)) rest).length
            ≤ rest.length := hsub2.length_le
      have hlenrest : rest.length + 1 ≤ N := by
        have : (oldest :: rest).length ≤ ts.length := by rw [← hts1]; exact hlen1
        simp only [List.length_cons] at this
        omega
      refine ⟨?_, ?_, ?_, ht2⟩
      · simp only [List.length_append, List.length_cons, List.length_nil]
        omega
      · rw [List.pairwise_append]
        refine ⟨List.Pairwise.sublist hsub2 hrest_sorted, by simp, ?_⟩
        intro a ha b hb
        rw [List.mem_singleton] at hb
        subst hb
        have := hrest_le a (hsub2.subset ha)
        linarith
      · intro x hx
        rw [List.mem_append] at hx
        rcases hx with hx | hx
        · have := hrest_le x (hsub2.subset hx)
          linarith
        · rw [List.mem_singleton] at hx
          subst hx
          exact le_rfl
  · rw [if_neg hcap]
    refine ⟨?_, ?_, ?_, le_rfl⟩
    · simp only [List.length_append, List.length_cons, List.length_nil]
      omega
    · rw [List.pairwise_append]
      exact ⟨hsort1, by simp, fun a ha b hb => by
        rw [List.mem_singleton] at hb
        subst hb
        exact hle1 a ha⟩
    · intro x hx
      rw [List.mem_append] at hx
      rcases hx with hx | hx
      · exact hle1 x hx
      · rw [List.mem_singleton] at hx
        subst hx
        exact le_rfl

/-- C4: the rate-limiter invariants.  Starting from a chronologically
ordered window of at most `N` entries all recorded by now, an acquire
leaves at most `N` entries, keeps them in chronological order, and every
entry is at most the clock after the call (so no instant observes more
than `N` entries); a status query also leaves at most `N` ordered entries.
From an empty window, `N` acquires at one instant wait `0` in total, and
the `(N+1)`-st waits `W + 1/2` ≥ `W`, the time the oldest entry needs to
expire. -/
theorem c4_rate_limiter (N : Nat) (W t : ℚ) (ts : List ℚ)
    (hN : 1 ≤ N) (hW : 0 < W)
    (hsort : ts.Pairwise (· ≤ ·)) (hle : ∀ x ∈ ts, x ≤ t) (hlen : ts.length ≤ N) :
    ((check_ollama_rate_limit N W t ts).timestamps.length ≤ N ∧
     (check_ollama_rate_limit N W t ts).timestamps.Pairwise (· ≤ ·) ∧
     ∀ x ∈ (check_ollama_rate_limit N W t ts).timestamps,
       x ≤ (check_ollama_rate_limit N W t ts).now) ∧
    ((get_ollama_rate_limit_status N W t ts).2.length ≤ N ∧
     (get_ollama_rate_limit_status N W t ts).2.Pairwise (· ≤ ·)) ∧
    ((acquireRepeat N W t N).1 = 0 ∧
     (acquireRepeat N W t (N + 1)).1 = W + 1/2 ∧
     W ≤ (acquireRepeat N W t (N + 1)).1) := by
  obtain ⟨h1, h2, h3, _⟩ := acquire_invariant N W t ts hN hsort hle hlen
  refine ⟨⟨h1, h2, h3⟩, ⟨?_, ?_⟩, ?_, ?_, ?_⟩
  · exact le_trans (List.Sublist.length_le (List.dropWhile_sublist _)) hlen
  · exact List.Pairwise.sublist (List.dropWhile_sublist _) hsort
  · rw [acquireRepeat_under N W t hW N le_rfl]
  · exact acquireRepeat_over N W t hN hW
  · rw [acquireRepeat_over N W t hN hW]
    linarith

/-- C4 witness at capacity 1, window 60, clock 0 and an empty window. -/
theorem c4_rate_limiter_witness :
    ((check_ollama_rate_limit 1 60 0 []).timestamps.length ≤ 1 ∧
     (check_ollama_rate_limit 1 60 0 []).timestamps.Pairwise (· ≤ ·) ∧
     ∀ x ∈ (check_ollama_rate_limit 1 60 0 []).timestamps,
       x ≤ (check_ollama_rate_limit 1 60 0 []).now) ∧
    ((get_ollama_rate_limit_status 1 60 0 []).2.length ≤ 1 ∧
     (get_ollama_rate_limit_status 1 60 0 []).2.Pairwise (· ≤ ·)) ∧
    ((acquireRepeat 1 60 0 1).1 = 0 ∧
     (acquireRepeat 1 60 0 (1 + 1)).1 = 60 + 1/2 ∧
     (60 : ℚ) ≤ (acquireRepeat 1 60 0 (1 + 1)).1) :=
  c4_rate_limiter 1 60 0 [] (by norm_num) (by norm_num)
    List.Pairwise.nil (by simp) (by simp)

theorem parseObjFields_isObj :
    ∀ (fuel : Nat) (s : List Char) (first : Bool) (v : JVal) (r : List Char),
      parseObjFields fuel s first = some (v, r) → v.isObj = true := by
  intro fuel
  cases fuel with
  | zero => intro s first v r h; cases h
  | succ n =>
    intro s first v r h
    unfold parseObjFields at h
    repeat' split at h
    all_goals first
      | (cases h; rfl)
      | cases h

theorem parseVal_head_obj (fuel : Nat) (s r' : List Char) (v : JVal) (rest : List Char)
    (hws : skipJsonWs s = '{' :: r') (h : parseVal fuel s = some (v, rest)) :
    v.isObj = true := by
  cases fuel with
  | zero => cases h
  | succ n =>
    unfold parseVal at h
    rw [hws] at h
    exact parseObjFields_isObj n r' true v rest h

theorem parseJson_brace_obj {r : List Char} {v : JVal}
    (h : parseJson ('{' :: r) = some v) : v.isObj = true := by
  unfold parseJson at h
  cases hp : parseVal (2 * ('{' :: r).length + 4) ('{' :: r) with
  | none => rw [hp] at h; cases h
  | some pr =>
    obtain ⟨w, rest⟩ := pr
    rw [hp] at h
    simp only [] at h
    split at h
    · cases h
      exact parseVal_head_obj _ _ r _ _ (by rfl) hp
    · cases h

theorem reSubUrlAux_cons_of_ne_paren {allowS : Bool} {c : Char} (hc : ¬(c = '('))
    (t : List Char) (fuel : Nat) :
    reSubUrlAux allowS (fuel + 1) (c :: t) = c :: reSubUrlAux allowS fuel t := by
  have hm : tryMatchUrl allowS (c :: t) = none := by
    simp [tryMatchUrl, hc]
  simp only [reSubUrlAux, hm]

theorem reSubUrl_head_of_ne_paren {allowS : Bool} {c : Char} (hc : ¬(c = '('))
    (t : List Char) :
    reSubUrl allowS (c :: t) = c :: reSubUrlAux allowS t.length t := by
  show reSubUrlAux allowS (c :: t).length (c :: t) = _
  rw [List.length_cons, reSubUrlAux_cons_of_ne_paren hc]

theorem repair_json_head {c : Char} {t : List Char} (hc : ¬(c = '('))
    (hws : isPySpace c = false) :
    (repair_json (c :: t)).head? = some c := by
  unfold repair_json
  simp only [reSubUrl_head_of_ne_paren hc, pyRstrip_cons hws]
  repeat' split
  all_goals simp [List.cons_append]

theorem tryParseCandidate_isObj {cand : List Char} (hhead : cand.head? = some '{') :
    ∀ v ∈ tryParseCandidate cand, v.isObj = true := by
  intro v hv
  cases cand with
  | nil => cases hhead
  | cons c t =>
    simp only [List.head?_cons, Option.some.injEq] at hhead
    subst hhead
    unfold tryParseCandidate at hv
    cases hp : parseJson ('{' :: t) with
    | some w =>
      rw [hp] at hv
      simp only [List.mem_singleton] at hv
      subst hv
      exact parseJson_brace_obj hp
    | none =>
      rw [hp] at hv
      cases hrep : repair_json ('{' :: t) with
      | nil =>
        have := repair_json_head (c := '{') (t := t) (by decide) (by decide)
        rw [hrep] at this
        cases this
      | cons d u =>
        have hd : d = '{' := by
          have := repair_json_head (c := '{') (t := t) (by decide) (by decide)
          rw [hrep] at this
          simp only [List.head?_cons, Option.some.injEq] at this
          exact this
        subst hd
        rw [hrep] at hv
        cases hp2 : parseJson ('{' :: u) with
        | some w =>
          rw [hp2] at hv
          simp only [List.mem_singleton] at hv
          subst hv
          exact parseJson_brace_obj hp2
        | none => rw [hp2] at hv; simp at hv

theorem getLast?_cons_of_ne_nil {α : Type} {a : α} {l : List α} (h : l ≠ []) :
    (a :: l).getLast? = l.getLast? := by
  cases l with
  | nil => exact absurd rfl h
  | cons b t => exact List.getLast?_cons_cons

theorem scanObjectsAux_isObj :
    ∀ (s : List Char) (count : Int) (acc : Option (List Char)),
      (∀ rev, acc = some rev → rev.getLast? = some '{') →
      ∀ v ∈ scanObjectsAux count acc s, v.isObj = true := by
  intro s
  induction s with
  | nil =>
    intro count acc _ v hv
    unfold scanObjectsAux at hv
    cases hv
  | cons c rest ih =>
    intro count acc hacc v hv
    have hmap : ∀ rev, acc.map (c :: ·) = some rev → rev.getLast? = some '{' := by
      intro rev h
      cases acc with
      | none => cases h
      | some old =>
        rw [Option.map_some'] at h
        cases h
        have hold := hacc old rfl
        have hne : old ≠ [] := by
          intro h0
          rw [h0] at hold
          cases hold
        rw [getLast?_cons_of_ne_nil hne]
        exact hold
    unfold scanObjectsAux at hv
    by_cases hc : c = '{'
    · rw [if_pos hc] at hv
      by_cases hz : count = 0
      · rw [if_pos hz] at hv
        refine ih 1 (some [c]) ?_ v hv
        intro rev h
        cases h
        simp [hc]
      · rw [if_neg hz] at hv
        exact ih (count + 1) (acc.map (c :: ·)) hmap v hv
    · rw [if_neg hc] at hv
      by_cases hcb : c = '}'
      · rw [if_pos hcb] at hv
        by_cases hz : count - 1 = 0
        · rw [if_pos hz] at hv
          cases hacc2 : acc with
          | some revChars =>
            rw [hacc2] at hv
            rw [List.mem_append] at hv
            rcases hv with hv | hv
            · refine tryParseCandidate_isObj ?_ v hv
              have hrev := hacc revChars hacc2
              have hne : revChars ≠ [] := by
                intro h0
                rw [h0] at hrev
                cases hrev
              rw [List.reverse_cons, List.head?_append, List.head?_reverse, hrev]
              rfl
            · exact ih 0 none (fun rev h => by cases h) v hv
          | none =>
            rw [hacc2] at hv
            exact ih (count - 1) none (fun rev h => by cases h) v hv
        · rw [if_neg hz] at hv
          exact ih (count - 1) (acc.map (c :: ·)) hmap v hv
      · rw [if_neg hcb] at hv
        exact ih count (acc.map (c :: ·)) hmap v hv

theorem extract_json_objects_isObj (text : List Char) :
    ∀ v ∈ extract_json_objects text, v.isObj = true :=
  scanObjectsAux_isObj (stripNumbered text) 0 none (fun _ h => by cases h)

theorem hasSub_head_eq_false {s pat : List Char} {c : Char}
    (hpat : pat.head? = some c) (hc : c ∉ s) : hasSub s pat = false := by
  cases pat with
  | nil => cases hpat
  | cons p t =>
    simp only [List.head?_cons, Option.some.injEq] at hpat
    subst hpat
    exact hasSub_eq_false hc

theorem stripCodeFence_id {s : List Char} (hbt : '`' ∉ s) :
    stripCodeFence s = s := by
  unfold stripCodeFence
  rw [hasSub_head_eq_false (by rfl) hbt, hasSub_head_eq_false (by rfl) hbt]
  simp


theorem chat_json_array_branch_ok_isObj {rt : List Char} {v : JVal}
    (h : chat_json_array_branch rt = some (.ok v)) : v.isObj = true := by
  unfold chat_json_array_branch at h
  repeat' split at h
  all_goals cases h
  all_goals simp_all [Bool.and_eq_true]

theorem chat_json_parse_ok_isObj {rt2 : List Char} {v : JVal}
    (h : chat_json_parse rt2 = .ok v) : v.isObj = true := by
  unfold chat_json_parse at h
  repeat' split at h
  all_goals cases h
  all_goals first
    | rfl
    | assumption
    | (rename_i heq
       exact extract_json_objects_isObj _ _ (by rw [heq]; exact List.mem_cons_self _ _))

/-- C7 amended: whatever text the model produced, the object entry point
only ever returns a mapping, and a bare scalar is rejected with the
dictionary-shape error; the array entry point, however, returns whatever
sequence parses — `[1, 2, 3]` comes back with non-mapping elements. -/
theorem c7_amended :
    (∀ (s : List Char) (v : JVal), chat_json s = .ok v → v.isObj = true) ∧
    chat_json ("42".toList) = .error .notDict ∧
    chat_json_array ("[1, 2, 3]".toList) = .ok [.num ['1'], .num ['2'], .num ['3']] := by
  refine ⟨?_, by rfl, by rfl⟩
  intro s v h
  unfold chat_json at h
  split at h
  · cases h
  · split at h
    · rename_i r heq
      subst h
      exact chat_json_array_branch_ok_isObj heq
    · exact chat_json_parse_ok_isObj h

/-- C7 counterexample: the array entry point on `[1, 2, 3]` returns the
sequence unchanged although its elements are numbers, not mappings. -/
theorem c7_counterexample :
    chat_json_array ("[1, 2, 3]".toList) = .ok [.num ['1'], .num ['2'], .num ['3']] ∧
    (JVal.num ['1']).isObj = false :=
  ⟨by rfl, by rfl⟩

/-- C7 witness: the object entry point applied to a concrete object text,
with the mapping guarantee instantiated there. -/
theorem c7_amended_witness :
    chat_json ("\x7b\"a\": 1\x7d".toList) = .ok (.obj [("a".toList, .num ['1'])]) ∧
    (JVal.obj [("a".toList, .num ['1'])]).isObj = true :=
  ⟨by rfl, c7_amended.1 ("\x7b\"a\": 1\x7d".toList) (.obj [("a".toList, .num ['1'])]) (by rfl)⟩

theorem findChar_cons_self (c : Char) (t : List Char) :
    findChar c (c :: t) = some 0 := by
  simp [findChar, List.findIdx?_cons]

theorem findIdx?_of_head {α : Type} {p : α → Bool} {l : List α} {a : α}
    (h : l.head? = some a) (hp : p a = true) : l.findIdx? p = some 0 := by
  cases l with
  | nil => cases h
  | cons b t =>
    simp only [List.head?_cons, Option.some.injEq] at h
    subst h
    rw [List.findIdx?_cons, if_pos hp]

theorem rfindChar_getLast {c : Char} {s : List Char} (h : s.getLast? = some c) :
    rfindChar c s = some (s.length - 1) := by
  unfold rfindChar
  rw [findIdx?_of_head (by rw [List.head?_reverse]; exact h) (by simp)]
  simp

theorem pySlice_zero_len (s : List Char) : pySlice 0 s.length s = s := by
  simp [pySlice]

/-- C1 counterexample: the text `\x7bx \x7b"a": 1\x7d` is a valid JSON
object surrounded by prose, but the prose contains a stray `\x7b`, so
boundary slicing, repair and the scan all fail and `chat_json` raises
instead of returning the mapping. -/
theorem c1_counterexample :
    parseJson ("\x7b\"a\": 1\x7d".toList) = some (.obj [("a".toList, .num ['1'])]) ∧
    chat_json ("\x7bx \x7b\"a\": 1\x7d".toList) = .error (.parseFailed true) :=
  ⟨by rfl, by rfl⟩

/-- C1 amended: when the completion contains no backtick, its stripped
form does not start with `[`, and slicing from the first `\x7b` to the
last `\x7d` is a valid JSON object, `chat_json` returns exactly that
parsed mapping; and on the fenced scenario text the mapping
`a ↦ 1, b ↦ [2,3]` is returned. -/
theorem c1_amended (s : List Char) (i j : Nat) (fields : List (List Char × JVal))
    (hbt : '`' ∉ s)
    (harr : ¬((pyStrip s).head? = some '['))
    (hfb : findChar '{' s = some i)
    (hlb : rfindChar '}' s = some j)
    (hij : i < j)
    (hparse : parseJson (pySlice i (j + 1) s) = some (.obj fields)) :
    chat_json s = .ok (.obj fields) ∧
    chat_json ("Here you go:\n```json\n\x7b\"a\": 1, \"b\": [2,3]\x7d\n```".toList) =
      .ok (.obj [("a".toList, .num ['1']), ("b".toList, .arr [.num ['2'], .num ['3']])]) := by
  refine ⟨?_, by rfl⟩
  have hmem : '{' ∈ s := findChar_mem hfb
  have hmem2 : '}' ∈ s := rfindChar_mem hlb
  have hne : pyStrip s ≠ [] := pyStrip_ne_nil hmem (by decide)
  have hsne : s ≠ [] := List.ne_nil_of_mem hmem
  unfold chat_json
  rw [if_neg (by simp [List.isEmpty_iff, hne, hsne])]
  rw [stripCodeFence_id hbt]
  have hbranch : chat_json_array_branch s = none := by
    unfold chat_json_array_branch
    rw [if_neg (by simp [harr])]
  rw [hbranch]
  have hslice : chat_json_slice s = pySlice i (j + 1) s := by
    unfold chat_json_slice
    rw [if_pos (by
      simp only [Bool.and_eq_true]
      exact ⟨List.elem_iff.mpr hmem, List.elem_iff.mpr hmem2⟩)]
    rw [hfb, hlb]
    simp only []
    rw [if_pos hij]
  rw [hslice]
  unfold chat_json_parse
  rw [hparse]

/-- C1 witness: prose around a concrete object, and the fenced scenario. -/
theorem c1_amended_witness :
    chat_json ("ok: \x7b\"k\": 2\x7d done".toList)
      = .ok (.obj [("k".toList, .num ['2'])]) ∧
    chat_json ("Here you go:\n```json\n\x7b\"a\": 1, \"b\": [2,3]\x7d\n```".toList) =
      .ok (.obj [("a".toList, .num ['1']), ("b".toList, .arr [.num ['2'], .num ['3']])]) :=
  c1_amended ("ok: \x7b\"k\": 2\x7d done".toList) 4 11 [("k".toList, .num ['2'])]
    (by decide) (by decide) (by rfl) (by rfl) (by decide) (by rfl)

/-- C8 counterexample: `["```"]` is a bare valid JSON array, but the
triple backtick inside its string triggers the fence stripping, which
destroys the array; `chat_json_array` raises instead of returning it
unchanged. -/
theorem c8_counterexample :
    parseJson ("[\"```\"]".toList) = some (.arr [.str ("```".toList)]) ∧
    chat_json_array ("[\"```\"]".toList) = .error .parseArrayFailed :=
  ⟨by rfl, by rfl⟩

/-- C8 amended: a bare valid JSON array containing no backtick is
returned unchanged; and a backtick-free text that does not contain both
an opening and a closing bracket, on which the object scan finds exactly
one JSON object, yields the one-element array of that object. -/
theorem c8_amended (s t : List Char) (xs : List JVal) (v : JVal)
    (hbt : '`' ∉ s) (hhead : s.head? = some '[') (hlast : s.getLast? = some ']')
    (hparse : parseJson s = some (.arr xs))
    (hbt2 : '`' ∉ t) (hnb : ¬('[' ∈ t ∧ ']' ∈ t)) (hne2 : pyStrip t ≠ [])
    (hscan : extract_json_objects t = [v]) :
    chat_json_array s = .ok xs ∧ chat_json_array t = .ok [v] := by
  constructor
  · obtain ⟨s0, rfl⟩ : ∃ s0, s = '[' :: s0 := by
      cases s with
      | nil => cases hhead
      | cons a t0 =>
        simp only [List.head?_cons, Option.some.injEq] at hhead
        subst hhead
        exact ⟨t0, rfl⟩
    have hmem2 : ']' ∈ ('[' :: s0) := List.mem_of_mem_getLast? hlast
    have hne : pyStrip ('[' :: s0) ≠ [] :=
      pyStrip_ne_nil (List.mem_cons_self _ _) (by decide)
    have hs0 : s0 ≠ [] := by
      intro h0
      subst h0
      cases hlast
    unfold chat_json_array
    rw [if_neg (by simp [List.isEmpty_iff, hne])]
    rw [stripCodeFence_id hbt]
    have hslice : chat_json_array_slice ('[' :: s0) = some xs := by
      unfold chat_json_array_slice
      rw [if_pos (by
        simp only [Bool.and_eq_true]
        exact ⟨List.elem_iff.mpr (List.mem_cons_self _ _), List.elem_iff.mpr hmem2⟩)]
      rw [findChar_cons_self, rfindChar_getLast hlast]
      simp only []
      rw [if_pos (by
        simp only [List.length_cons]
        have : 0 < s0.length := List.length_pos.mpr hs0
        omega)]
      rw [show ('[' :: s0).length - 1 + 1 = ('[' :: s0).length by
        simp only [List.length_cons]
        omega]
      rw [pySlice_zero_len, hparse]
    rw [hslice]
  · have hcond2 : (t.contains '[' && t.contains ']') = false := by
      rcases Bool.eq_false_or_eq_true (t.contains '[' && t.contains ']') with hb | hb
      · exfalso
        rw [Bool.and_eq_true] at hb
        exact hnb ⟨List.elem_iff.mp hb.1, List.elem_iff.mp hb.2⟩
      · exact hb
    have htne : t ≠ [] := by
      intro h0
      subst h0
      exact hne2 rfl
    unfold chat_json_array
    rw [if_neg (by simp [List.isEmpty_iff, hne2, htne])]
    rw [stripCodeFence_id hbt2]
    have hslice2 : chat_json_array_slice t = none := by
      unfold chat_json_array_slice
      rw [if_neg (by rw [hcond2]; simp)]
    rw [hslice2, hscan]

/-- C8 witness: a concrete bare array, and a single object in prose. -/
theorem c8_amended_witness :
    chat_json_array ("[1, 2]".toList) = .ok [.num ['1'], .num ['2']] ∧
    chat_json_array ("see \x7b\"a\": 1\x7d ok".toList)
      = .ok [.obj [("a".toList, .num ['1'])]] :=
  c8_amended ("[1, 2]".toList) ("see \x7b\"a\": 1\x7d ok".toList)
    [.num ['1'], .num ['2']] (.obj [("a".toList, .num ['1'])])
    (by decide) (by rfl) (by rfl) (by rfl)
    (by decide) (by decide) (by decide) (by rfl)
